import Mathlib

/-!
# Verification of cinolib's mesh smoother (`include/cinolib/smoother.cpp`)

A shallow embedding of the smoother: the mesh is a record of lists
(vertex positions, per-vertex labels, edges with a `marked` flag,
per-polygon normals, vertex→polygon and vertex→edge adjacency), and the
per-iteration assembly state is a record holding the shared row counter,
the weight vector, the triplet list, the right-hand side, the
feature-parameter map (as an association list in insertion order, standing
for the `unordered_map`) and the diagnostic log (standing for the
messages printed to `std::cout`).

Scalars (`double` in the source) are idealised as elements of an
arbitrary commutative ring `R` with decidable equality; every smoother
operation uses only ring operations, so the embedding is parametric in
`R` and concrete runs instantiate `R := ℤ`.

External collaborators — the Laplacian entry generator
(`laplacian_matrix_entries`, from cinolib/laplacian.h), vector
normalisation (`vec3d::normalize`, from cinolib's vector class), the
weighted least-squares solver and the octree nearest-point queries — are
not part of the translated source; they enter as abstract function
parameters bundled in `SmootherExt`.
-/

namespace CinoSmoother

/-- A 3D vector over the scalar ring `R`, standing for cinolib's `vec3d`. -/
structure Vec3 (R : Type) where
  x : R
  y : R
  z : R
deriving DecidableEq, Repr

namespace Vec3

variable {R : Type} [CommRing R]

/-- The zero vector. -/
def zero : Vec3 R := ⟨0, 0, 0⟩

instance : Inhabited (Vec3 R) := ⟨zero⟩

/-- Componentwise sum. -/
def add (a b : Vec3 R) : Vec3 R := ⟨a.x + b.x, a.y + b.y, a.z + b.z⟩

/-- Componentwise difference. -/
def sub (a b : Vec3 R) : Vec3 R := ⟨a.x - b.x, a.y - b.y, a.z - b.z⟩

/-- Scalar multiple `t * v` (the `vec * scalar` of the source). -/
def smul (t : R) (v : Vec3 R) : Vec3 R := ⟨t * v.x, t * v.y, t * v.z⟩

/-- Dot product, as in `vec3d::dot`. -/
def dot (a b : Vec3 R) : R := a.x * b.x + a.y * b.y + a.z * b.z

/-- Cross product, as in `vec3d::cross`. -/
def cross (a b : Vec3 R) : Vec3 R :=
  ⟨a.y * b.z - a.z * b.y, a.z * b.x - a.x * b.z, a.x * b.y - a.y * b.x⟩

/-- `vec3d::length_squared`. -/
def length_squared (v : Vec3 R) : R := dot v v

instance : Add (Vec3 R) := ⟨add⟩

instance : Sub (Vec3 R) := ⟨sub⟩

end Vec3

/-- An edge record: the two endpoint vertex ids and the `marked` flag of
the source's `edge_data(eid).marked`. -/
structure Edge where
  v0 : Nat
  v1 : Nat
  marked : Bool
deriving DecidableEq, Repr

instance : Inhabited Edge := ⟨⟨0, 0, false⟩⟩

/-- Modelled from the spec: the vertex label `REGULAR` is declared in
cinolib/smoother.h, which is not part of the translated source; the
labels are a C++ enum, i.e. three distinct integers stored in the `int`
field `vert_data(vid).label`. -/
def REGULAR : Int := 0

/-- Modelled from the spec: the vertex label `FEATURE` of
cinolib/smoother.h (see `REGULAR`). -/
def FEATURE : Int := 1

/-- Modelled from the spec: the vertex label `CORNER` of
cinolib/smoother.h (see `REGULAR`). -/
def CORNER : Int := 2

/-- The mesh as consumed by smoother.cpp: positions, labels, edges,
polygon normals, and the vertex→polygon / vertex→edge adjacency. -/
structure Mesh (R : Type) where
  verts : List (Vec3 R)
  labels : List Int
  edges : List Edge
  polyNormals : List (Vec3 R)
  v2p : List (List Nat)
  v2e : List (List Nat)
deriving DecidableEq, Repr

namespace Mesh

variable {R : Type} [CommRing R]

/-- `m.num_verts()`. -/
def num_verts (m : Mesh R) : Nat := m.verts.length

/-- `m.vert(vid)` (read). -/
def vert (m : Mesh R) (vid : Nat) : Vec3 R := m.verts.getD vid default

/-- `m.adj_v2p(vid)`. -/
def adj_v2p (m : Mesh R) (vid : Nat) : List Nat := m.v2p.getD vid []

/-- `m.adj_v2e(vid)`. -/
def adj_v2e (m : Mesh R) (vid : Nat) : List Nat := m.v2e.getD vid []

/-- The edge record with id `eid`. -/
def edge (m : Mesh R) (eid : Nat) : Edge := m.edges.getD eid default

/-- `m.poly_data(pid).normal`. -/
def poly_normal (m : Mesh R) (pid : Nat) : Vec3 R := m.polyNormals.getD pid default

/-- `m.vert_opposite_to(eid, vid)`: the endpoint of edge `eid` other than `vid`. -/
def vert_opposite_to (m : Mesh R) (eid vid : Nat) : Nat :=
  if (m.edge eid).v0 = vid then (m.edge eid).v1 else (m.edge eid).v0

/-- `m.vert_data(vid).label` (read). -/
def label (m : Mesh R) (vid : Nat) : Int := m.labels.getD vid (-1)

end Mesh

/-- A sparse-matrix triplet `Entry(row, col, value)`. -/
structure Entry (R : Type) where
  row : Nat
  col : Nat
  val : R
deriving DecidableEq, Repr

/-- The per-iteration assembly state: the shared row counter `row`, the
weight vector `w`, the triplet list `entries`, the right-hand side `rhs`,
the feature-parameter map `feature_data` (vid ↦ (dir, t-column), kept as
an association list in insertion order) and the diagnostic log. -/
structure AsmState (R : Type) where
  row : Nat
  w : List R
  entries : List (Entry R)
  rhs : List R
  feature_data : List (Nat × Vec3 R × Nat)
  warnings : List String
deriving DecidableEq, Repr

/-- The fresh state each iteration of `mesh_smoother` starts from. -/
def AsmState.init (R : Type) : AsmState R := ⟨0, [], [], [], [], []⟩

variable {R : Type} [CommRing R] [DecidableEq R]

/-- `laplacian_term`: appends the Laplacian entries produced by the
external `laplacian_matrix_entries(m, mode, 3)` (abstract parameter
`lapEntries`), pushes `3*num_verts` weights equal to `weight` and as many
zero right-hand sides, and advances the row counter by `3*num_verts`. -/
def laplacian_term (lapEntries : Mesh R → Int → List (Entry R)) (m : Mesh R)
    (mode : Int) (weight : R) (s : AsmState R) : AsmState R :=
  let L := lapEntries m mode
  let extra_rows := m.num_verts * 3
  { s with
    entries := s.entries ++ L,
    w := s.w ++ List.replicate extra_rows weight,
    rhs := s.rhs ++ List.replicate extra_rows 0,
    row := s.row + extra_rows }

/-- One step of `smooth_on_tangent_space`'s loop over the polygons
incident to `vid`: one row with the polygon normal's components on the
vertex's three coordinate columns, right-hand side `n·p`, weight
`weight`; a zero-length normal is logged. -/
def tangentSpaceStep (m : Mesh R) (vid : Nat) (weight : R)
    (s : AsmState R) (pid : Nat) : AsmState R :=
  let nv := m.num_verts
  let p := m.vert vid
  let n := m.poly_normal pid
  { row := s.row + 1,
    w := s.w ++ [weight],
    entries := s.entries ++
      [⟨s.row, vid, n.x⟩, ⟨s.row, nv + vid, n.y⟩, ⟨s.row, nv + nv + vid, n.z⟩],
    rhs := s.rhs ++ [n.dot p],
    feature_data := s.feature_data,
    warnings :=
      if n.length_squared = 0
      then s.warnings ++ ["WARNING: zero length face normal!"]
      else s.warnings }

/-- `smooth_on_tangent_space`: one plane-constraint row per polygon
incident to the REGULAR vertex `vid`. -/
def smooth_on_tangent_space (m : Mesh R) (vid : Nat) (weight : R)
    (s : AsmState R) : AsmState R :=
  (m.adj_v2p vid).foldl (tangentSpaceStep m vid weight) s

/-- The marked edges incident to `vid`, in adjacency order. -/
def markedEdges (m : Mesh R) (vid : Nat) : List Nat :=
  (m.adj_v2e vid).filter (fun eid => (m.edge eid).marked)

/-- The number of marked edges incident to `vid` (the `count` of
`label_features`). -/
def markedCount (m : Mesh R) (vid : Nat) : Nat := (markedEdges m vid).length

/-- The `nbrs` vector of `smooth_on_tangent_line`: positions of the
endpoints opposite to `vid` along its marked edges. -/
def featureNbrs (m : Mesh R) (vid : Nat) : List (Vec3 R) :=
  (markedEdges m vid).map (fun eid => m.vert (m.vert_opposite_to eid vid))

/-- The tangent direction of `smooth_on_tangent_line`:
`normalize(nbrs.front() - nbrs.back())`, with normalisation abstract
(parameter `nrm`, see `NormalizeModel`). -/
def featureDir (nrm : Vec3 R → Vec3 R) (m : Mesh R) (vid : Nat) : Vec3 R :=
  let nbrs := featureNbrs m vid
  nrm (nbrs.headD default - nbrs.getLastD default)

/-- Modelled from the spec: `vec3d::normalize` lives in cinolib's vector
class, outside the translated source. The spec only requires that a
degenerate difference stays degenerate — the smoother "proceeds with the
degenerate vector and records a diagnostic" — so the development is
parametric in any normalisation map fixing the zero vector. -/
def NormalizeModel (nrm : Vec3 R → Vec3 R) : Prop := nrm Vec3.zero = Vec3.zero

/-- `smooth_on_tangent_line`: allocates the auxiliary column `col_t` for
the FEATURE vertex `vid` (the next free column after the three coordinate
blocks and the already-allocated feature columns), records
`(dir, col_t)` in `feature_data`, and emits the three rows
`x_new - t*dir = p` plus the unit-weight row pinning `t` to zero. A
zero-length direction is logged and kept. -/
def smooth_on_tangent_line (nrm : Vec3 R → Vec3 R) (m : Mesh R) (vid : Nat)
    (weight : R) (s : AsmState R) : AsmState R :=
  let dir := featureDir nrm m vid
  let p := m.vert vid
  let nv := m.num_verts
  let col_t := nv + nv + nv + s.feature_data.length
  { row := s.row + 4,
    w := s.w ++ [weight, weight, weight, 1],
    entries := s.entries ++
      [⟨s.row, vid, 1⟩, ⟨s.row, col_t, -dir.x⟩,
       ⟨s.row + 1, nv + vid, 1⟩, ⟨s.row + 1, col_t, -dir.y⟩,
       ⟨s.row + 2, nv + nv + vid, 1⟩, ⟨s.row + 2, col_t, -dir.z⟩,
       ⟨s.row + 3, col_t, 1⟩],
    rhs := s.rhs ++ [p.x, p.y, p.z, 0],
    feature_data := s.feature_data ++ [(vid, dir, col_t)],
    warnings :=
      if dir.length_squared = 0
      then s.warnings ++ ["WARNING: zero length tangent curve!"]
      else s.warnings }

/-- `hold_corner`: three rows pinning the CORNER vertex's coordinates to
their current values, each weighted by `weight`. -/
def hold_corner (m : Mesh R) (vid : Nat) (weight : R) (s : AsmState R) : AsmState R :=
  let nv := m.num_verts
  let p := m.vert vid
  { row := s.row + 3,
    w := s.w ++ [weight, weight, weight],
    entries := s.entries ++
      [⟨s.row, vid, 1⟩, ⟨s.row + 1, nv + vid, 1⟩, ⟨s.row + 2, nv + nv + vid, 1⟩],
    rhs := s.rhs ++ [p.x, p.y, p.z],
    feature_data := s.feature_data,
    warnings := s.warnings }

/-- The `switch(count)` of `label_features`: 0 ↦ REGULAR, 2 ↦ FEATURE,
anything else ↦ CORNER. -/
def labelOf (count : Nat) : Int :=
  match count with
  | 0 => REGULAR
  | 2 => FEATURE
  | _ => CORNER

/-- `label_features`: relabels every vertex from its marked-edge count. -/
def label_features (m : Mesh R) : Mesh R :=
  { m with labels := (List.range m.num_verts).map (fun vid => labelOf (markedCount m vid)) }

/-- The set of configuration options consumed by `mesh_smoother`. -/
structure SmootherOptions (R : Type) where
  laplacian_mode : Int
  w_laplace : R
  w_regular : R
  w_feature : R
  w_corner : R
  n_iters : Nat
  reproject_on_target : Bool

/-- The external collaborators of `mesh_smoother`, abstract here:
the Laplacian entry generator, vector normalisation, the weighted
least-squares solver (arguments: row count, column count, triplets,
weights, right-hand side), and the two octree nearest-point queries
(reference surface and reference feature curves, both built once before
the iteration loop). -/
structure SmootherExt (R : Type) where
  lapEntries : Mesh R → Int → List (Entry R)
  normalize : Vec3 R → Vec3 R
  solve : Nat → Nat → List (Entry R) → List R → List R → List R
  closest_srf : Vec3 R → Vec3 R
  closest_feat : Vec3 R → Vec3 R

/-- The label dispatch of the assembly loop body: REGULAR vertices get
tangent-space rows, FEATURE vertices tangent-line rows, CORNER vertices
pinning rows; any other label falls into the (release-mode no-op)
`default` branch. -/
def vertexTerm (ext : SmootherExt R) (opt : SmootherOptions R) (m : Mesh R)
    (s : AsmState R) (vid : Nat) : AsmState R :=
  if m.label vid = REGULAR then smooth_on_tangent_space m vid opt.w_regular s
  else if m.label vid = FEATURE then smooth_on_tangent_line ext.normalize m vid opt.w_feature s
  else if m.label vid = CORNER then hold_corner m vid opt.w_corner s
  else s

/-- One iteration's full assembly: the Laplacian block followed by the
per-vertex constraint blocks, in vertex-id order, starting from the
fresh state. -/
def assemble (ext : SmootherExt R) (opt : SmootherOptions R) (m : Mesh R) : AsmState R :=
  (List.range m.num_verts).foldl (vertexTerm ext opt m)
    (laplacian_term ext.lapEntries m opt.laplacian_mode opt.w_laplace (AsmState.init R))

/-- The column count of the sparse matrix handed to the solver:
`m.num_verts()*3 + feature_data.size()`. -/
def solveCols (m : Mesh R) (s : AsmState R) : Nat :=
  m.num_verts * 3 + s.feature_data.length

/-- The solution vector of one iteration, as produced by the external
weighted least-squares solve on the assembled system. -/
def iterRes (ext : SmootherExt R) (opt : SmootherOptions R) (m : Mesh R) : List R :=
  let s := assemble ext opt m
  ext.solve s.row (solveCols m s) s.entries s.w s.rhs

/-- The reconstruction of one vertex from the solution vector `res`:
REGULAR/CORNER vertices read their three coordinate columns, FEATURE
vertices move from their old position by `t*dir` with `(dir, t-column)`
looked up in `feature_data`; reprojection, when enabled, snaps the
result through the corresponding octree query. -/
def reconstructVert (ext : SmootherExt R) (opt : SmootherOptions R) (m : Mesh R)
    (fd : List (Nat × Vec3 R × Nat)) (res : List R) (vid : Nat) : Vec3 R :=
  let nv := m.num_verts
  if m.label vid = REGULAR ∨ m.label vid = CORNER then
    let p : Vec3 R := ⟨res.getD vid 0, res.getD (nv + vid) 0, res.getD (2 * nv + vid) 0⟩
    if opt.reproject_on_target then ext.closest_srf p else p
  else if m.label vid = FEATURE then
    let d := (List.lookup vid fd).getD default
    let p := m.vert vid + Vec3.smul (res.getD d.2 0) d.1
    if opt.reproject_on_target then ext.closest_feat p else p
  else m.vert vid

/-- One iteration of `mesh_smoother`'s loop: assemble, solve, and update
every vertex position in place. -/
def smoother_iter (ext : SmootherExt R) (opt : SmootherOptions R) (m : Mesh R) : Mesh R :=
  let s := assemble ext opt m
  let res := iterRes ext opt m
  { m with verts := (List.range m.num_verts).map (reconstructVert ext opt m s.feature_data res) }

/-- `mesh_smoother`: classify once, then run `n_iters` iterations. -/
def mesh_smoother (ext : SmootherExt R) (opt : SmootherOptions R) (m : Mesh R) : Mesh R :=
  (smoother_iter ext opt)^[opt.n_iters] (label_features m)

/-- The triplets emitted by `smooth_on_tangent_space` for vertex `vid`:
for each incident polygon (in adjacency order), one row carrying the
polygon normal's components on the vertex's three coordinate columns,
with consecutive row indices starting at `row`. -/
def tangentSpaceEntries (m : Mesh R) (vid : Nat) : Nat → List Nat → List (Entry R)
  | _, [] => []
  | row, pid :: rest =>
    let nv := m.num_verts
    let n := m.poly_normal pid
    ⟨row, vid, n.x⟩ :: ⟨row, nv + vid, n.y⟩ :: ⟨row, nv + nv + vid, n.z⟩ ::
      tangentSpaceEntries m vid (row + 1) rest

/-- The internal-consistency invariant of one iteration's assembly: the
shared row counter, the weight-vector length and the right-hand-side
length agree. -/
def balanced (s : AsmState R) : Prop := s.row = s.w.length ∧ s.row = s.rhs.length

/-- The column-layout invariant of the feature-parameter map: the `i`-th
allocated feature vertex (in encounter order) owns the auxiliary column
`3·|V| + i`, directly after the three coordinate blocks. -/
def featureColsOk (nv : Nat) (s : AsmState R) : Prop :=
  ∀ i, i < s.feature_data.length →
    (s.feature_data.getD i default).2.2 = 3 * nv + i

/-! ## Concrete sample data (used to evaluate the theorems) -/

/-- A small concrete mesh over `ℤ`: vertex 0 has no marked incident
edge (REGULAR, one incident polygon), vertex 1 has two (FEATURE),
vertices 2 and 3 have one each (CORNER); the stored labels agree with
that classification. -/
def sampleMesh : Mesh ℤ :=
  { verts := [⟨0, 0, 0⟩, ⟨1, 0, 0⟩, ⟨0, 1, 0⟩, ⟨0, 0, 1⟩],
    labels := [0, 1, 2, 2],
    edges := [⟨1, 2, true⟩, ⟨1, 3, true⟩, ⟨2, 3, false⟩, ⟨0, 1, false⟩],
    polyNormals := [⟨0, 0, 1⟩],
    v2p := [[0], [], [], []],
    v2e := [[3], [0, 1, 3], [0, 2], [1, 2]] }

/-- A degenerate concrete mesh over `ℤ`: vertex 0 is a FEATURE vertex
whose two marked edges both lead to vertex 1, so its two opposite
endpoints coincide. -/
def degenMesh : Mesh ℤ :=
  { verts := [⟨0, 0, 0⟩, ⟨1, 2, 3⟩],
    labels := [1, 1],
    edges := [⟨0, 1, true⟩, ⟨0, 1, true⟩],
    polyNormals := [],
    v2p := [[], []],
    v2e := [[0, 1], [0, 1]] }

/-- Concrete external collaborators over `ℤ`: no Laplacian entries,
identity normalisation, a solver returning the all-ones vector of the
right length, identity nearest-point queries. -/
def sampleExt : SmootherExt ℤ :=
  { lapEntries := fun _ _ => [],
    normalize := id,
    solve := fun _ cols _ _ _ => List.replicate cols 1,
    closest_srf := id,
    closest_feat := id }

/-- Concrete options with zero iterations. -/
def sampleOpt0 : SmootherOptions ℤ := ⟨0, 1, 1, 1, 1, 0, false⟩

/-- Concrete options with one iteration and no reprojection. -/
def sampleOpt1 : SmootherOptions ℤ := ⟨0, 1, 1, 1, 1, 1, false⟩

/-! ## Generic list and vector lemmas -/

lemma getD_map_range {α : Type} (f : Nat → α) (d : α) (n i : Nat) (h : i < n) :
    ((List.range n).map f).getD i d = f i := by
  rw [List.getD_eq_getElem?_getD]
  simp [List.getElem?_map, List.getElem?_range, h]

lemma getD_append_lt {α : Type} (l t : List α) (d : α) (i : Nat) (h : i < l.length) :
    (l ++ t).getD i d = l.getD i d := by
  rw [List.getD_eq_getElem?_getD, List.getD_eq_getElem?_getD, List.getElem?_append_left h]

lemma getD_concat_length {α : Type} (l : List α) (a d : α) :
    (l ++ [a]).getD l.length d = a := by
  simp [List.getD_eq_getElem?_getD]

lemma foldl_invariant {α β : Type} (f : β → α → β) (P : β → Prop)
    (hf : ∀ b a, P b → P (f b a)) :
    ∀ (l : List α) (b : β), P b → P (l.foldl f b) := by
  intro l
  induction l with
  | nil => intro b hb; exact hb
  | cons a t ih => intro b hb; exact ih (f b a) (hf b a hb)

omit [DecidableEq R] in
lemma Vec3.sub_self_eq_zero (a : Vec3 R) : a - a = Vec3.zero := by
  show Vec3.sub a a = Vec3.zero
  cases a with
  | mk x y z => simp [Vec3.sub, Vec3.zero]

omit [DecidableEq R] in
lemma Vec3.length_squared_zero : (Vec3.zero : Vec3 R).length_squared = 0 := by
  simp [Vec3.length_squared, Vec3.dot, Vec3.zero]

omit [DecidableEq R] in
lemma Vec3.add_sub_self (p v : Vec3 R) : (p + v) - p = v := by
  show Vec3.sub (Vec3.add p v) p = v
  cases p with
  | mk px py pz =>
    cases v with
    | mk vx vy vz => simp [Vec3.add, Vec3.sub]

omit [DecidableEq R] in
lemma Vec3.cross_smul_self (t : R) (v : Vec3 R) :
    Vec3.cross (Vec3.smul t v) v = Vec3.zero := by
  cases v with
  | mk x y z =>
    simp only [Vec3.cross, Vec3.smul, Vec3.zero, Vec3.mk.injEq]
    refine ⟨by ring, by ring, by ring⟩

/-! ## Label lemmas -/

lemma labelOf_eq_ite (c : Nat) :
    labelOf c = if c = 0 then REGULAR else if c = 2 then FEATURE else CORNER := by
  match c with
  | 0 => rfl
  | 1 => rfl
  | 2 => rfl
  | (n + 3) =>
    rw [if_neg (by omega), if_neg (by omega)]
    rfl

lemma labelOf_mem (c : Nat) :
    labelOf c = REGULAR ∨ labelOf c = FEATURE ∨ labelOf c = CORNER := by
  match c with
  | 0 => exact Or.inl rfl
  | 1 => exact Or.inr (Or.inr rfl)
  | 2 => exact Or.inr (Or.inl rfl)
  | (n + 3) => exact Or.inr (Or.inr rfl)

lemma labelOf_feature (c : Nat) (h : labelOf c = FEATURE) : c = 2 := by
  match c with
  | 0 => exact absurd (show (0 : Int) = 1 from h) (by decide)
  | 1 => exact absurd (show (2 : Int) = 1 from h) (by decide)
  | 2 => rfl
  | (n + 3) => exact absurd (show (2 : Int) = 1 from h) (by decide)

omit [CommRing R] [DecidableEq R] in
lemma label_features_label (m : Mesh R) (vid : Nat) (h : vid < m.num_verts) :
    (label_features m).label vid = labelOf (markedCount m vid) := by
  show ((List.range m.num_verts).map (fun v => labelOf (markedCount m v))).getD vid (-1) = _
  rw [getD_map_range _ _ _ _ h]

lemma iterate_smoother_labels (ext : SmootherExt R) (opt : SmootherOptions R) :
    ∀ (n : Nat) (m : Mesh R), ((smoother_iter ext opt)^[n] m).labels = m.labels := by
  intro n
  induction n with
  | zero => intro m; rfl
  | succ k ih =>
    intro m
    rw [Function.iterate_succ_apply, ih]
    rfl

lemma iterate_smoother_edges (ext : SmootherExt R) (opt : SmootherOptions R) :
    ∀ (n : Nat) (m : Mesh R), ((smoother_iter ext opt)^[n] m).edges = m.edges := by
  intro n
  induction n with
  | zero => intro m; rfl
  | succ k ih =>
    intro m
    rw [Function.iterate_succ_apply, ih]
    rfl

lemma iterate_smoother_v2e (ext : SmootherExt R) (opt : SmootherOptions R) :
    ∀ (n : Nat) (m : Mesh R), ((smoother_iter ext opt)^[n] m).v2e = m.v2e := by
  intro n
  induction n with
  | zero => intro m; rfl
  | succ k ih =>
    intro m
    rw [Function.iterate_succ_apply, ih]
    rfl

omit [CommRing R] [DecidableEq R] in
lemma markedEdges_congr (ma mb : Mesh R) (vid : Nat)
    (he : ma.edges = mb.edges) (hv : ma.v2e = mb.v2e) :
    markedEdges ma vid = markedEdges mb vid := by
  simp [markedEdges, Mesh.adj_v2e, Mesh.edge, he, hv]

/-! ## Characterisation of the tangent-space fold -/

lemma tangentSpace_foldl_spec (m : Mesh R) (vid : Nat) (weight : R) :
    ∀ (l : List Nat) (s : AsmState R),
      (l.foldl (tangentSpaceStep m vid weight) s).row = s.row + l.length ∧
      (l.foldl (tangentSpaceStep m vid weight) s).w
        = s.w ++ List.replicate l.length weight ∧
      (l.foldl (tangentSpaceStep m vid weight) s).rhs
        = s.rhs ++ l.map (fun pid => (m.poly_normal pid).dot (m.vert vid)) ∧
      (l.foldl (tangentSpaceStep m vid weight) s).entries
        = s.entries ++ tangentSpaceEntries m vid s.row l ∧
      (l.foldl (tangentSpaceStep m vid weight) s).feature_data = s.feature_data := by
  intro l
  induction l with
  | nil => intro s; simp [tangentSpaceEntries]
  | cons pid rest ih =>
    intro s
    obtain ⟨h1, h2, h3, h4, h5⟩ := ih (tangentSpaceStep m vid weight s pid)
    refine ⟨?_, ?_, ?_, ?_, ?_⟩
    · rw [List.foldl_cons, h1]
      simp [tangentSpaceStep]
      omega
    · rw [List.foldl_cons, h2]
      simp [tangentSpaceStep, List.replicate_succ]
    · rw [List.foldl_cons, h3]
      simp [tangentSpaceStep]
    · rw [List.foldl_cons, h4]
      simp [tangentSpaceStep, tangentSpaceEntries]
    · rw [List.foldl_cons, h5]
      rfl

/-! ## Claim theorems and witnesses -/

/-- C1: for every FEATURE-labelled vertex, assembly dispatches to
`smooth_on_tangent_line`, which emits exactly 4 rows: one per coordinate
with coefficient 1 on the vertex's coordinate column and `-dir.c` on the
allocated `t` column (`3|V| +` the number of features allocated so far),
right-hand side the current coordinate, weight the feature weight; plus
a fourth row with coefficient 1 on the `t` column, right-hand side 0 and
weight exactly 1. -/
theorem smooth_on_tangent_line_emits_four_rows
    (ext : SmootherExt R) (opt : SmootherOptions R) (m : Mesh R) (vid : Nat)
    (s : AsmState R) (h : m.label vid = FEATURE) :
    vertexTerm ext opt m s vid
      = smooth_on_tangent_line ext.normalize m vid opt.w_feature s ∧
    (smooth_on_tangent_line ext.normalize m vid opt.w_feature s).row = s.row + 4 ∧
    (smooth_on_tangent_line ext.normalize m vid opt.w_feature s).entries = s.entries ++
      [⟨s.row, vid, 1⟩,
       ⟨s.row, 3 * m.num_verts + s.feature_data.length,
         -(featureDir ext.normalize m vid).x⟩,
       ⟨s.row + 1, m.num_verts + vid, 1⟩,
       ⟨s.row + 1, 3 * m.num_verts + s.feature_data.length,
         -(featureDir ext.normalize m vid).y⟩,
       ⟨s.row + 2, 2 * m.num_verts + vid, 1⟩,
       ⟨s.row + 2, 3 * m.num_verts + s.feature_data.length,
         -(featureDir ext.normalize m vid).z⟩,
       ⟨s.row + 3, 3 * m.num_verts + s.feature_data.length, 1⟩] ∧
    (smooth_on_tangent_line ext.normalize m vid opt.w_feature s).rhs
      = s.rhs ++ [(m.vert vid).x, (m.vert vid).y, (m.vert vid).z, 0] ∧
    (smooth_on_tangent_line ext.normalize m vid opt.w_feature s).w
      = s.w ++ [opt.w_feature, opt.w_feature, opt.w_feature, 1] := by
  refine ⟨by simp [vertexTerm, h, REGULAR, FEATURE], rfl, ?_, rfl, rfl⟩
  have h3 : 3 * m.num_verts + s.feature_data.length
      = m.num_verts + m.num_verts + m.num_verts + s.feature_data.length := by omega
  have h2 : 2 * m.num_verts + vid = m.num_verts + m.num_verts + vid := by omega
  rw [h3, h2]
  rfl

/-- C5: for every REGULAR-labelled vertex, assembly dispatches to
`smooth_on_tangent_space`, which emits exactly one row per incident
polygon, carrying the polygon normal's components on the vertex's three
coordinate columns, with right-hand side `n · p_old` and weight the
regular weight, and allocates no feature parameter. -/
theorem smooth_on_tangent_space_rows
    (ext : SmootherExt R) (opt : SmootherOptions R) (m : Mesh R) (vid : Nat)
    (s : AsmState R) (h : m.label vid = REGULAR) :
    vertexTerm ext opt m s vid = smooth_on_tangent_space m vid opt.w_regular s ∧
    (smooth_on_tangent_space m vid opt.w_regular s).row
      = s.row + (m.adj_v2p vid).length ∧
    (smooth_on_tangent_space m vid opt.w_regular s).w
      = s.w ++ List.replicate (m.adj_v2p vid).length opt.w_regular ∧
    (smooth_on_tangent_space m vid opt.w_regular s).rhs
      = s.rhs ++ (m.adj_v2p vid).map (fun pid => (m.poly_normal pid).dot (m.vert vid)) ∧
    (smooth_on_tangent_space m vid opt.w_regular s).entries
      = s.entries ++ tangentSpaceEntries m vid s.row (m.adj_v2p vid) ∧
    (smooth_on_tangent_space m vid opt.w_regular s).feature_data = s.feature_data := by
  obtain ⟨h1, h2, h3, h4, h5⟩ :=
    tangentSpace_foldl_spec m vid opt.w_regular (m.adj_v2p vid) s
  exact ⟨by simp [vertexTerm, h], h1, h2, h3, h4, h5⟩

/-- C6: for every CORNER-labelled vertex, assembly dispatches to
`hold_corner`, which emits exactly 3 rows, one per coordinate, each with
coefficient 1 on that coordinate's column, right-hand side the current
coordinate value and weight the corner weight, and allocates no
auxiliary unknown. -/
theorem hold_corner_rows
    (ext : SmootherExt R) (opt : SmootherOptions R) (m : Mesh R) (vid : Nat)
    (s : AsmState R) (h : m.label vid = CORNER) :
    vertexTerm ext opt m s vid = hold_corner m vid opt.w_corner s ∧
    (hold_corner m vid opt.w_corner s).row = s.row + 3 ∧
    (hold_corner m vid opt.w_corner s).entries = s.entries ++
      [⟨s.row, vid, 1⟩, ⟨s.row + 1, m.num_verts + vid, 1⟩,
       ⟨s.row + 2, 2 * m.num_verts + vid, 1⟩] ∧
    (hold_corner m vid opt.w_corner s).rhs
      = s.rhs ++ [(m.vert vid).x, (m.vert vid).y, (m.vert vid).z] ∧
    (hold_corner m vid opt.w_corner s).w
      = s.w ++ [opt.w_corner, opt.w_corner, opt.w_corner] ∧
    (hold_corner m vid opt.w_corner s).feature_data = s.feature_data := by
  refine ⟨by simp [vertexTerm, h, REGULAR, FEATURE, CORNER], rfl, ?_, rfl, rfl, rfl⟩
  have h2 : 2 * m.num_verts + vid = m.num_verts + m.num_verts + vid := by omega
  rw [h2]
  rfl

/-- Evaluation of `smooth_on_tangent_line_emits_four_rows` on the sample
mesh at its FEATURE vertex 1. -/
theorem smooth_on_tangent_line_emits_four_rows_witness :
    sampleMesh.label 1 = FEATURE ∧
    (vertexTerm sampleExt sampleOpt1 sampleMesh (AsmState.init ℤ) 1
      = smooth_on_tangent_line sampleExt.normalize sampleMesh 1 sampleOpt1.w_feature
          (AsmState.init ℤ) ∧
    (smooth_on_tangent_line sampleExt.normalize sampleMesh 1 sampleOpt1.w_feature
        (AsmState.init ℤ)).row = (AsmState.init ℤ).row + 4 ∧
    (smooth_on_tangent_line sampleExt.normalize sampleMesh 1 sampleOpt1.w_feature
        (AsmState.init ℤ)).entries = (AsmState.init ℤ).entries ++
      [⟨(AsmState.init ℤ).row, 1, 1⟩,
       ⟨(AsmState.init ℤ).row, 3 * sampleMesh.num_verts + (AsmState.init ℤ).feature_data.length,
         -(featureDir sampleExt.normalize sampleMesh 1).x⟩,
       ⟨(AsmState.init ℤ).row + 1, sampleMesh.num_verts + 1, 1⟩,
       ⟨(AsmState.init ℤ).row + 1,
         3 * sampleMesh.num_verts + (AsmState.init ℤ).feature_data.length,
         -(featureDir sampleExt.normalize sampleMesh 1).y⟩,
       ⟨(AsmState.init ℤ).row + 2, 2 * sampleMesh.num_verts + 1, 1⟩,
       ⟨(AsmState.init ℤ).row + 2,
         3 * sampleMesh.num_verts + (AsmState.init ℤ).feature_data.length,
         -(featureDir sampleExt.normalize sampleMesh 1).z⟩,
       ⟨(AsmState.init ℤ).row + 3,
         3 * sampleMesh.num_verts + (AsmState.init ℤ).feature_data.length, 1⟩] ∧
    (smooth_on_tangent_line sampleExt.normalize sampleMesh 1 sampleOpt1.w_feature
        (AsmState.init ℤ)).rhs = (AsmState.init ℤ).rhs ++
      [(sampleMesh.vert 1).x, (sampleMesh.vert 1).y, (sampleMesh.vert 1).z, 0] ∧
    (smooth_on_tangent_line sampleExt.normalize sampleMesh 1 sampleOpt1.w_feature
        (AsmState.init ℤ)).w = (AsmState.init ℤ).w ++
      [sampleOpt1.w_feature, sampleOpt1.w_feature, sampleOpt1.w_feature, 1]) :=
  ⟨by decide,
   smooth_on_tangent_line_emits_four_rows sampleExt sampleOpt1 sampleMesh 1
     (AsmState.init ℤ) (by decide)⟩

/-- Evaluation of `smooth_on_tangent_space_rows` on the sample mesh at
its REGULAR vertex 0. -/
theorem smooth_on_tangent_space_rows_witness :
    sampleMesh.label 0 = REGULAR ∧
    (vertexTerm sampleExt sampleOpt1 sampleMesh (AsmState.init ℤ) 0
      = smooth_on_tangent_space sampleMesh 0 sampleOpt1.w_regular (AsmState.init ℤ) ∧
    (smooth_on_tangent_space sampleMesh 0 sampleOpt1.w_regular (AsmState.init ℤ)).row
      = (AsmState.init ℤ).row + (sampleMesh.adj_v2p 0).length ∧
    (smooth_on_tangent_space sampleMesh 0 sampleOpt1.w_regular (AsmState.init ℤ)).w
      = (AsmState.init ℤ).w
        ++ List.replicate (sampleMesh.adj_v2p 0).length sampleOpt1.w_regular ∧
    (smooth_on_tangent_space sampleMesh 0 sampleOpt1.w_regular (AsmState.init ℤ)).rhs
      = (AsmState.init ℤ).rhs ++ (sampleMesh.adj_v2p 0).map
          (fun pid => (sampleMesh.poly_normal pid).dot (sampleMesh.vert 0)) ∧
    (smooth_on_tangent_space sampleMesh 0 sampleOpt1.w_regular (AsmState.init ℤ)).entries
      = (AsmState.init ℤ).entries
        ++ tangentSpaceEntries sampleMesh 0 (AsmState.init ℤ).row (sampleMesh.adj_v2p 0) ∧
    (smooth_on_tangent_space sampleMesh 0 sampleOpt1.w_regular (AsmState.init ℤ)).feature_data
      = (AsmState.init ℤ).feature_data) :=
  ⟨by decide,
   smooth_on_tangent_space_rows sampleExt sampleOpt1 sampleMesh 0
     (AsmState.init ℤ) (by decide)⟩

/-- Evaluation of `hold_corner_rows` on the sample mesh at its CORNER
vertex 2. -/
theorem hold_corner_rows_witness :
    sampleMesh.label 2 = CORNER ∧
    (vertexTerm sampleExt sampleOpt1 sampleMesh (AsmState.init ℤ) 2
      = hold_corner sampleMesh 2 sampleOpt1.w_corner (AsmState.init ℤ) ∧
    (hold_corner sampleMesh 2 sampleOpt1.w_corner (AsmState.init ℤ)).row
      = (AsmState.init ℤ).row + 3 ∧
    (hold_corner sampleMesh 2 sampleOpt1.w_corner (AsmState.init ℤ)).entries
      = (AsmState.init ℤ).entries ++
        [⟨(AsmState.init ℤ).row, 2, 1⟩,
         ⟨(AsmState.init ℤ).row + 1, sampleMesh.num_verts + 2, 1⟩,
         ⟨(AsmState.init ℤ).row + 2, 2 * sampleMesh.num_verts + 2, 1⟩] ∧
    (hold_corner sampleMesh 2 sampleOpt1.w_corner (AsmState.init ℤ)).rhs
      = (AsmState.init ℤ).rhs ++
        [(sampleMesh.vert 2).x, (sampleMesh.vert 2).y, (sampleMesh.vert 2).z] ∧
    (hold_corner sampleMesh 2 sampleOpt1.w_corner (AsmState.init ℤ)).w
      = (AsmState.init ℤ).w ++ [sampleOpt1.w_corner, sampleOpt1.w_corner, sampleOpt1.w_corner] ∧
    (hold_corner sampleMesh 2 sampleOpt1.w_corner (AsmState.init ℤ)).feature_data
      = (AsmState.init ℤ).feature_data) :=
  ⟨by decide,
   hold_corner_rows sampleExt sampleOpt1 sampleMesh 2 (AsmState.init ℤ) (by decide)⟩

/-- C2: `label_features` assigns REGULAR on 0 marked incident edges,
FEATURE on exactly 2, CORNER on any other count, and `mesh_smoother`
performs this classification exactly once, before the iteration loop:
the labels after the whole call are exactly those of the one
classification pass, never recomputed inside the loop. -/
theorem label_features_classification
    (ext : SmootherExt R) (opt : SmootherOptions R) (m : Mesh R) (vid : Nat)
    (h : vid < m.num_verts) :
    (label_features m).label vid
      = (if markedCount m vid = 0 then REGULAR
         else if markedCount m vid = 2 then FEATURE else CORNER) ∧
    (mesh_smoother ext opt m).labels = (label_features m).labels := by
  constructor
  · rw [label_features_label m vid h, labelOf_eq_ite]
  · exact iterate_smoother_labels ext opt opt.n_iters (label_features m)

/-- Evaluation of `label_features_classification` on the sample mesh at
vertex 1 (two marked incident edges). -/
theorem label_features_classification_witness :
    1 < sampleMesh.num_verts ∧
    ((label_features sampleMesh).label 1
      = (if markedCount sampleMesh 1 = 0 then REGULAR
         else if markedCount sampleMesh 1 = 2 then FEATURE else CORNER) ∧
    (mesh_smoother sampleExt sampleOpt1 sampleMesh).labels
      = (label_features sampleMesh).labels) :=
  ⟨by decide, label_features_classification sampleExt sampleOpt1 sampleMesh 1 (by decide)⟩

/-- C9: after `label_features`, labels are never recomputed inside the
loop, every vertex's label is one of REGULAR, FEATURE, CORNER, and every
FEATURE vertex has exactly two marked incident edges — hence exactly two
tangent-line neighbours in every iteration — so the `nbrs.size()==2`
assertion of `smooth_on_tangent_line` and the unknown-vertex-type
default branches of assembly and reconstruction are unreachable. -/
theorem labels_well_formed_after_classification
    (ext : SmootherExt R) (opt : SmootherOptions R) (m : Mesh R) (vid k : Nat)
    (h : vid < m.num_verts) :
    ((smoother_iter ext opt)^[k] (label_features m)).labels = (label_features m).labels ∧
    ((label_features m).label vid = REGULAR ∨ (label_features m).label vid = FEATURE ∨
      (label_features m).label vid = CORNER) ∧
    ((label_features m).label vid = FEATURE →
      markedCount m vid = 2 ∧
      (featureNbrs ((smoother_iter ext opt)^[k] (label_features m)) vid).length = 2) := by
  refine ⟨iterate_smoother_labels ext opt k (label_features m), ?_, ?_⟩
  · rw [label_features_label m vid h]
    exact labelOf_mem (markedCount m vid)
  · intro hf
    rw [label_features_label m vid h] at hf
    have hc : markedCount m vid = 2 := labelOf_feature _ hf
    refine ⟨hc, ?_⟩
    have he : ((smoother_iter ext opt)^[k] (label_features m)).edges = m.edges :=
      iterate_smoother_edges ext opt k (label_features m)
    have hv : ((smoother_iter ext opt)^[k] (label_features m)).v2e = m.v2e :=
      iterate_smoother_v2e ext opt k (label_features m)
    show (featureNbrs _ vid).length = 2
    rw [featureNbrs, List.length_map,
      markedEdges_congr _ m vid he hv]
    exact hc

/-- Evaluation of `labels_well_formed_after_classification` on the
sample mesh at vertex 1 after one iteration. -/
theorem labels_well_formed_after_classification_witness :
    1 < sampleMesh.num_verts ∧
    (((smoother_iter sampleExt sampleOpt1)^[1] (label_features sampleMesh)).labels
      = (label_features sampleMesh).labels ∧
    ((label_features sampleMesh).label 1 = REGULAR ∨
      (label_features sampleMesh).label 1 = FEATURE ∨
      (label_features sampleMesh).label 1 = CORNER) ∧
    ((label_features sampleMesh).label 1 = FEATURE →
      markedCount sampleMesh 1 = 2 ∧
      (featureNbrs ((smoother_iter sampleExt sampleOpt1)^[1] (label_features sampleMesh)) 1).length
        = 2)) :=
  ⟨by decide,
   labels_well_formed_after_classification sampleExt sampleOpt1 sampleMesh 1 1 (by decide)⟩

/-- C3: for a FEATURE vertex whose two feature-adjacent opposite
vertices coincide, the tangent direction degenerates to the zero vector,
`smooth_on_tangent_line` records the zero-length-tangent diagnostic, and
the computation proceeds non-fatally with the degenerate direction: the
four rows are still emitted and the feature parameter is still
allocated, carrying the zero direction. -/
theorem tangent_line_degenerate_warning
    (nrm : Vec3 R → Vec3 R) (m : Mesh R) (vid : Nat) (weight : R) (s : AsmState R)
    (hn : NormalizeModel nrm)
    (hc : (featureNbrs m vid).headD default = (featureNbrs m vid).getLastD default) :
    featureDir nrm m vid = Vec3.zero ∧
    (smooth_on_tangent_line nrm m vid weight s).warnings
      = s.warnings ++ ["WARNING: zero length tangent curve!"] ∧
    (smooth_on_tangent_line nrm m vid weight s).row = s.row + 4 ∧
    (smooth_on_tangent_line nrm m vid weight s).feature_data
      = s.feature_data ++ [(vid, Vec3.zero,
          m.num_verts + m.num_verts + m.num_verts + s.feature_data.length)] := by
  have hd : featureDir nrm m vid = Vec3.zero := by
    show nrm ((featureNbrs m vid).headD default - (featureNbrs m vid).getLastD default)
      = Vec3.zero
    rw [hc, Vec3.sub_self_eq_zero]
    exact hn
  refine ⟨hd, ?_, rfl, ?_⟩
  · show (if (featureDir nrm m vid).length_squared = 0
        then s.warnings ++ ["WARNING: zero length tangent curve!"]
        else s.warnings) = s.warnings ++ ["WARNING: zero length tangent curve!"]
    rw [hd]
    simp [Vec3.length_squared_zero]
  · show s.feature_data ++ [(vid, featureDir nrm m vid,
        m.num_verts + m.num_verts + m.num_verts + s.feature_data.length)] = _
    rw [hd]

/-- Evaluation of `tangent_line_degenerate_warning` on the degenerate
mesh, whose FEATURE vertex 0 has both marked edges leading to vertex 1. -/
theorem tangent_line_degenerate_warning_witness :
    NormalizeModel sampleExt.normalize ∧
    (featureNbrs degenMesh 0).headD default = (featureNbrs degenMesh 0).getLastD default ∧
    (featureDir sampleExt.normalize degenMesh 0 = Vec3.zero ∧
    (smooth_on_tangent_line sampleExt.normalize degenMesh 0 1 (AsmState.init ℤ)).warnings
      = (AsmState.init ℤ).warnings ++ ["WARNING: zero length tangent curve!"] ∧
    (smooth_on_tangent_line sampleExt.normalize degenMesh 0 1 (AsmState.init ℤ)).row
      = (AsmState.init ℤ).row + 4 ∧
    (smooth_on_tangent_line sampleExt.normalize degenMesh 0 1 (AsmState.init ℤ)).feature_data
      = (AsmState.init ℤ).feature_data ++ [(0, Vec3.zero,
          degenMesh.num_verts + degenMesh.num_verts + degenMesh.num_verts
            + (AsmState.init ℤ).feature_data.length)]) :=
  ⟨(by decide : sampleExt.normalize Vec3.zero = Vec3.zero), by decide,
   tangent_line_degenerate_warning sampleExt.normalize degenMesh 0 1 (AsmState.init ℤ)
     (by decide : sampleExt.normalize Vec3.zero = Vec3.zero) (by decide)⟩

/-- C7: with `n_iters = 0` the iteration loop never runs: the result of
`mesh_smoother` is exactly the mesh produced by the single
classification pass, and in particular every vertex position is
identically the input position — only the labels are affected. -/
theorem mesh_smoother_zero_iters
    (ext : SmootherExt R) (opt : SmootherOptions R) (m : Mesh R)
    (h : opt.n_iters = 0) :
    mesh_smoother ext opt m = label_features m ∧
    (mesh_smoother ext opt m).verts = m.verts := by
  have h0 : mesh_smoother ext opt m
      = (smoother_iter ext opt)^[opt.n_iters] (label_features m) := rfl
  rw [h, Function.iterate_zero_apply] at h0
  exact ⟨h0, by rw [h0]; rfl⟩

/-- Evaluation of `mesh_smoother_zero_iters` on the sample mesh with the
zero-iteration options. -/
theorem mesh_smoother_zero_iters_witness :
    sampleOpt0.n_iters = 0 ∧
    (mesh_smoother sampleExt sampleOpt0 sampleMesh = label_features sampleMesh ∧
    (mesh_smoother sampleExt sampleOpt0 sampleMesh).verts = sampleMesh.verts) :=
  ⟨rfl, mesh_smoother_zero_iters sampleExt sampleOpt0 sampleMesh rfl⟩

/-- C8: with reprojection disabled, one iteration updates a FEATURE
vertex to `old_position + t·direction`, with `t` read from the solution
vector at the vertex's allocated column and the direction taken from the
per-iteration feature-parameter map; consequently the displacement is
the scalar multiple `t·direction` of the tangent direction, and its
cross product with the direction vanishes, whatever value `t` takes. -/
theorem feature_displacement_parallel
    (ext : SmootherExt R) (opt : SmootherOptions R) (m : Mesh R) (vid : Nat)
    (hrep : opt.reproject_on_target = false)
    (hlbl : m.label vid = FEATURE)
    (hv : vid < m.num_verts) :
    (smoother_iter ext opt m).vert vid
      = m.vert vid + Vec3.smul
          ((iterRes ext opt m).getD
            ((List.lookup vid (assemble ext opt m).feature_data).getD default).2 0)
          ((List.lookup vid (assemble ext opt m).feature_data).getD default).1 ∧
    Vec3.cross ((smoother_iter ext opt m).vert vid - m.vert vid)
      ((List.lookup vid (assemble ext opt m).feature_data).getD default).1
      = Vec3.zero := by
  have h1 : (smoother_iter ext opt m).vert vid
      = reconstructVert ext opt m (assemble ext opt m).feature_data (iterRes ext opt m) vid := by
    show ((List.range m.num_verts).map
        (reconstructVert ext opt m (assemble ext opt m).feature_data (iterRes ext opt m))).getD
          vid default = _
    exact getD_map_range _ _ _ _ hv
  have h2 : reconstructVert ext opt m (assemble ext opt m).feature_data (iterRes ext opt m) vid
      = m.vert vid + Vec3.smul
          ((iterRes ext opt m).getD
            ((List.lookup vid (assemble ext opt m).feature_data).getD default).2 0)
          ((List.lookup vid (assemble ext opt m).feature_data).getD default).1 := by
    simp [reconstructVert, hlbl, hrep, REGULAR, FEATURE, CORNER]
  refine ⟨h1.trans h2, ?_⟩
  rw [h1, h2, Vec3.add_sub_self, Vec3.cross_smul_self]

/-- Evaluation of `feature_displacement_parallel` on the sample mesh at
its FEATURE vertex 1, with the all-ones solver and one iteration. -/
theorem feature_displacement_parallel_witness :
    sampleOpt1.reproject_on_target = false ∧
    sampleMesh.label 1 = FEATURE ∧
    1 < sampleMesh.num_verts ∧
    ((smoother_iter sampleExt sampleOpt1 sampleMesh).vert 1
      = sampleMesh.vert 1 + Vec3.smul
          ((iterRes sampleExt sampleOpt1 sampleMesh).getD
            ((List.lookup 1 (assemble sampleExt sampleOpt1 sampleMesh).feature_data).getD
              default).2 0)
          ((List.lookup 1 (assemble sampleExt sampleOpt1 sampleMesh).feature_data).getD
            default).1 ∧
    Vec3.cross ((smoother_iter sampleExt sampleOpt1 sampleMesh).vert 1 - sampleMesh.vert 1)
      ((List.lookup 1 (assemble sampleExt sampleOpt1 sampleMesh).feature_data).getD default).1
      = Vec3.zero) :=
  ⟨rfl, by decide, by decide,
   feature_displacement_parallel sampleExt sampleOpt1 sampleMesh 1 rfl (by decide) (by decide)⟩

omit [DecidableEq R] in
lemma balanced_laplacian (lapE : Mesh R → Int → List (Entry R)) (m : Mesh R)
    (mode : Int) (wt : R) (s : AsmState R) (h : balanced s) :
    balanced (laplacian_term lapE m mode wt s) := by
  obtain ⟨h1, h2⟩ := h
  constructor
  · show s.row + m.num_verts * 3 = (s.w ++ List.replicate (m.num_verts * 3) wt).length
    rw [List.length_append, List.length_replicate, h1]
  · show s.row + m.num_verts * 3 = (s.rhs ++ List.replicate (m.num_verts * 3) (0 : R)).length
    rw [List.length_append, List.length_replicate, h2]

lemma balanced_tangent_space (m : Mesh R) (vid : Nat) (wt : R) (s : AsmState R)
    (h : balanced s) : balanced (smooth_on_tangent_space m vid wt s) := by
  obtain ⟨h1, h2⟩ := h
  obtain ⟨hr, hw, hrhs, -, -⟩ := tangentSpace_foldl_spec m vid wt (m.adj_v2p vid) s
  constructor
  · show (List.foldl (tangentSpaceStep m vid wt) s (m.adj_v2p vid)).row
      = (List.foldl (tangentSpaceStep m vid wt) s (m.adj_v2p vid)).w.length
    rw [hr, hw, List.length_append, List.length_replicate, h1]
  · show (List.foldl (tangentSpaceStep m vid wt) s (m.adj_v2p vid)).row
      = (List.foldl (tangentSpaceStep m vid wt) s (m.adj_v2p vid)).rhs.length
    rw [hr, hrhs, List.length_append, List.length_map, h2]

lemma balanced_tangent_line (nrm : Vec3 R → Vec3 R) (m : Mesh R) (vid : Nat)
    (wt : R) (s : AsmState R) (h : balanced s) :
    balanced (smooth_on_tangent_line nrm m vid wt s) := by
  obtain ⟨h1, h2⟩ := h
  constructor
  · show s.row + 4 = (s.w ++ [wt, wt, wt, 1]).length
    simp [h1]
  · show s.row + 4
      = (s.rhs ++ [(m.vert vid).x, (m.vert vid).y, (m.vert vid).z, 0]).length
    simp [h2]

omit [DecidableEq R] in
lemma balanced_hold_corner (m : Mesh R) (vid : Nat) (wt : R) (s : AsmState R)
    (h : balanced s) : balanced (hold_corner m vid wt s) := by
  obtain ⟨h1, h2⟩ := h
  constructor
  · show s.row + 3 = (s.w ++ [wt, wt, wt]).length
    simp [h1]
  · show s.row + 3 = (s.rhs ++ [(m.vert vid).x, (m.vert vid).y, (m.vert vid).z]).length
    simp [h2]

lemma balanced_vertexTerm (ext : SmootherExt R) (opt : SmootherOptions R) (m : Mesh R)
    (s : AsmState R) (vid : Nat) (h : balanced s) :
    balanced (vertexTerm ext opt m s vid) := by
  unfold vertexTerm
  split_ifs
  · exact balanced_tangent_space m vid opt.w_regular s h
  · exact balanced_tangent_line ext.normalize m vid opt.w_feature s h
  · exact balanced_hold_corner m vid opt.w_corner s h
  · exact h

lemma balanced_assemble (ext : SmootherExt R) (opt : SmootherOptions R) (m : Mesh R) :
    balanced (assemble ext opt m) := by
  show balanced ((List.range m.num_verts).foldl (vertexTerm ext opt m)
    (laplacian_term ext.lapEntries m opt.laplacian_mode opt.w_laplace (AsmState.init R)))
  apply foldl_invariant _ _ (fun b a hb => balanced_vertexTerm ext opt m b a hb)
  exact balanced_laplacian ext.lapEntries m opt.laplacian_mode opt.w_laplace
    (AsmState.init R) ⟨rfl, rfl⟩

lemma featureCols_tangent_space (m : Mesh R) (vid : Nat) (wt : R) (s : AsmState R)
    (h : featureColsOk m.num_verts s) :
    featureColsOk m.num_verts (smooth_on_tangent_space m vid wt s) := by
  intro i hi
  have hfd : (smooth_on_tangent_space m vid wt s).feature_data = s.feature_data :=
    (tangentSpace_foldl_spec m vid wt (m.adj_v2p vid) s).2.2.2.2
  rw [hfd] at hi ⊢
  exact h i hi

lemma featureCols_tangent_line (nrm : Vec3 R → Vec3 R) (m : Mesh R) (vid : Nat)
    (wt : R) (s : AsmState R) (h : featureColsOk m.num_verts s) :
    featureColsOk m.num_verts (smooth_on_tangent_line nrm m vid wt s) := by
  intro i hi
  have hfd : (smooth_on_tangent_line nrm m vid wt s).feature_data
      = s.feature_data ++ [(vid, featureDir nrm m vid,
          m.num_verts + m.num_verts + m.num_verts + s.feature_data.length)] := rfl
  rw [hfd] at hi ⊢
  rw [List.length_append, List.length_singleton] at hi
  by_cases hlt : i < s.feature_data.length
  · rw [getD_append_lt _ _ _ _ hlt]
    exact h i hlt
  · have hie : i = s.feature_data.length := by omega
    subst hie
    rw [getD_concat_length]
    show m.num_verts + m.num_verts + m.num_verts + s.feature_data.length
      = 3 * m.num_verts + s.feature_data.length
    omega

omit [DecidableEq R] in
lemma featureCols_hold_corner (m : Mesh R) (vid : Nat) (wt : R) (s : AsmState R)
    (h : featureColsOk m.num_verts s) :
    featureColsOk m.num_verts (hold_corner m vid wt s) := by
  intro i hi
  exact h i hi

lemma featureCols_vertexTerm (ext : SmootherExt R) (opt : SmootherOptions R) (m : Mesh R)
    (s : AsmState R) (vid : Nat) (h : featureColsOk m.num_verts s) :
    featureColsOk m.num_verts (vertexTerm ext opt m s vid) := by
  unfold vertexTerm
  split_ifs
  · exact featureCols_tangent_space m vid opt.w_regular s h
  · exact featureCols_tangent_line ext.normalize m vid opt.w_feature s h
  · exact featureCols_hold_corner m vid opt.w_corner s h
  · exact h

lemma featureCols_assemble (ext : SmootherExt R) (opt : SmootherOptions R) (m : Mesh R) :
    featureColsOk m.num_verts (assemble ext opt m) := by
  show featureColsOk m.num_verts ((List.range m.num_verts).foldl (vertexTerm ext opt m)
    (laplacian_term ext.lapEntries m opt.laplacian_mode opt.w_laplace (AsmState.init R)))
  apply foldl_invariant _ _ (fun b a hb => featureCols_vertexTerm ext opt m b a hb)
  intro i hi
  exact absurd (show i < 0 from hi) (Nat.not_lt_zero i)

/-- C4: the `i`-th feature parameter allocated during assembly (in
encounter order) owns column `3·|V| + i` — the feature columns sit
consecutively right after the three coordinate blocks `[0, 3·|V|)` —
and the column count handed to the solver is exactly `3·|V|` plus the
number of feature vertices encountered this iteration. -/
theorem feature_columns_layout
    (ext : SmootherExt R) (opt : SmootherOptions R) (m : Mesh R) (i : Nat)
    (h : i < (assemble ext opt m).feature_data.length) :
    ((assemble ext opt m).feature_data.getD i default).2.2 = 3 * m.num_verts + i ∧
    solveCols m (assemble ext opt m)
      = 3 * m.num_verts + (assemble ext opt m).feature_data.length := by
  refine ⟨featureCols_assemble ext opt m i h, ?_⟩
  show m.num_verts * 3 + (assemble ext opt m).feature_data.length = _
  omega

/-- Evaluation of `feature_columns_layout` on the sample mesh, whose
assembly allocates one feature parameter (vertex 1). -/
theorem feature_columns_layout_witness :
    0 < (assemble sampleExt sampleOpt1 sampleMesh).feature_data.length ∧
    (((assemble sampleExt sampleOpt1 sampleMesh).feature_data.getD 0 default).2.2
      = 3 * sampleMesh.num_verts + 0 ∧
    solveCols sampleMesh (assemble sampleExt sampleOpt1 sampleMesh)
      = 3 * sampleMesh.num_verts
        + (assemble sampleExt sampleOpt1 sampleMesh).feature_data.length) :=
  ⟨by decide, feature_columns_layout sampleExt sampleOpt1 sampleMesh 0 (by decide)⟩

/-- C10: each assembly operation keeps the shared row counter equal to
the weight-vector length and to the right-hand-side length, advancing
all three together by exactly the number of rows it emits (`3·|V|` for
the Laplacian block, one per incident polygon for tangent-space, 4 for
tangent-line, 3 for corner pinning); consequently the fully assembled
system handed to the solver has matching row dimension, weight length
and right-hand-side length. -/
theorem assembly_preserves_row_balance
    (ext : SmootherExt R) (opt : SmootherOptions R) (m : Mesh R) (vid : Nat)
    (wt : R) (s : AsmState R) (h : balanced s) :
    (balanced (laplacian_term ext.lapEntries m opt.laplacian_mode wt s) ∧
      (laplacian_term ext.lapEntries m opt.laplacian_mode wt s).row
        = s.row + m.num_verts * 3) ∧
    (balanced (smooth_on_tangent_space m vid wt s) ∧
      (smooth_on_tangent_space m vid wt s).row = s.row + (m.adj_v2p vid).length) ∧
    (balanced (smooth_on_tangent_line ext.normalize m vid wt s) ∧
      (smooth_on_tangent_line ext.normalize m vid wt s).row = s.row + 4) ∧
    (balanced (hold_corner m vid wt s) ∧ (hold_corner m vid wt s).row = s.row + 3) ∧
    balanced (assemble ext opt m) :=
  ⟨⟨balanced_laplacian ext.lapEntries m opt.laplacian_mode wt s h, rfl⟩,
   ⟨balanced_tangent_space m vid wt s h,
     (tangentSpace_foldl_spec m vid wt (m.adj_v2p vid) s).1⟩,
   ⟨balanced_tangent_line ext.normalize m vid wt s h, rfl⟩,
   ⟨balanced_hold_corner m vid wt s h, rfl⟩,
   balanced_assemble ext opt m⟩

/-- Evaluation of `assembly_preserves_row_balance` on the sample mesh
from the fresh assembly state. -/
theorem assembly_preserves_row_balance_witness :
    balanced (AsmState.init ℤ) ∧
    ((balanced (laplacian_term sampleExt.lapEntries sampleMesh sampleOpt1.laplacian_mode 1
        (AsmState.init ℤ)) ∧
      (laplacian_term sampleExt.lapEntries sampleMesh sampleOpt1.laplacian_mode 1
        (AsmState.init ℤ)).row = (AsmState.init ℤ).row + sampleMesh.num_verts * 3) ∧
    (balanced (smooth_on_tangent_space sampleMesh 0 1 (AsmState.init ℤ)) ∧
      (smooth_on_tangent_space sampleMesh 0 1 (AsmState.init ℤ)).row
        = (AsmState.init ℤ).row + (sampleMesh.adj_v2p 0).length) ∧
    (balanced (smooth_on_tangent_line sampleExt.normalize sampleMesh 0 1 (AsmState.init ℤ)) ∧
      (smooth_on_tangent_line sampleExt.normalize sampleMesh 0 1 (AsmState.init ℤ)).row
        = (AsmState.init ℤ).row + 4) ∧
    (balanced (hold_corner sampleMesh 0 1 (AsmState.init ℤ)) ∧
      (hold_corner sampleMesh 0 1 (AsmState.init ℤ)).row = (AsmState.init ℤ).row + 3) ∧
    balanced (assemble sampleExt sampleOpt1 sampleMesh)) :=
  ⟨⟨rfl, rfl⟩,
   assembly_preserves_row_balance sampleExt sampleOpt1 sampleMesh 0 1
     (AsmState.init ℤ) ⟨rfl, rfl⟩⟩

end CinoSmoother
